import Mathlib

/-!
Verification development for the bias-correction core of eXpress
(`src/biascorrection.cpp`).  The C++ code is shallowly embedded: doubles are
idealised as exact rationals, `std::string` as `List Char`, and the
`FrequencyMatrix` accumulators as cell functions `ℕ → ℕ → ℚ`.  Code that this
repository uses but that is not part of the source file under analysis
(`frequencymatrix.h`, `main.h`, `transcripts.h`, `fragments.h`) is modelled
from the specification and marked as such in the doc comments.
-/

namespace BiasCorrection

/-- Source constant `LEN_BINS` (biascorrection.cpp line 21): transcript-length
bin boundaries, final bin a very large sentinel. -/
def LEN_BINS : List ℕ := [791, 1265, 1707, 2433, 999999999]

/-- Source constant `POS_BINS` (line 22): fractional-position bin boundaries,
last entry 1.0.  The double literals 0.1 … 1.0 are idealised as exact
rationals. -/
def POS_BINS : List ℚ :=
  [1/10, 2/10, 3/10, 4/10, 5/10, 6/10, 7/10, 8/10, 9/10, 1]

/-- Source constant `CENTER` (line 25). -/
def CENTER : ℤ := 11

/-- Source constant `WINDOW` (line 26). -/
def WINDOW : ℤ := 21

/-- Source constant `PADDING` (line 27): the 10-character string
"NNNNNNNNNN". -/
def PADDING : List Char := List.replicate 10 'N'

/-- Modelled from the spec: `ctoi` lives in code outside this source file.
The nucleotide alphabet is exactly A, C, G, T case-insensitively; any other
character (including the padding symbol N) maps to the sentinel index 4 and
is excluded from accumulation. -/
def ctoi (c : Char) : ℕ :=
  if c = 'A' ∨ c = 'a' then 0
  else if c = 'C' ∨ c = 'c' then 1
  else if c = 'G' ∨ c = 'g' then 2
  else if c = 'T' ∨ c = 't' then 3
  else 4

/-- Pointwise update of one cell of a two-index accumulator grid.  Modelled
from the spec: `FrequencyMatrix::increment` mutates a single `(row, col)`
cell; the grid itself is represented as the cell function. -/
def matUpdate (m : ℕ → ℕ → ℚ) (i j : ℕ) (f : ℚ → ℚ) : ℕ → ℕ → ℚ :=
  fun a b => if a = i ∧ b = j then f (m a b) else m a b

/-- Pointwise update of one cell of a one-index (single row) accumulator. -/
def rowUpdate (m : ℕ → ℚ) (j : ℕ) (f : ℚ → ℚ) : ℕ → ℚ :=
  fun b => if b = j then f (m b) else m b

/-- `std::upper_bound` over a boundary vector: for a sorted list, the first
index whose element is strictly greater than `v` (equivalently the length of
the longest prefix of elements `≤ v`). -/
def upperBound {α : Type} [LinearOrder α] (bins : List α) (v : α) : ℕ :=
  match bins with
  | [] => 0
  | b :: rest => if v < b then 0 else upperBound rest v + 1

/-- State of `SeqWeightTable` (lines 29-71): `_observed` is a
`window_size × NUM_NUCS` logged matrix with pseudocount `alpha`
(cells start at `log alpha`), `_expected` is a `1 × NUM_NUCS` un-logged
matrix with pseudocount 0 (cells start at 0). -/
structure SeqWeightTable where
  observed : ℕ → ℕ → ℚ
  expected : ℕ → ℚ

/-- The `SeqWeightTable` constructor (lines 29-32).  Modelled from the spec:
`FrequencyMatrix` cells are initialised with the pseudocount; in log mode the
accumulator stores log-mass, so the observed cells start at `log alpha`.
The real logarithm is not representable in ℚ, so the model is parameterised
directly by `la`, the log of the pseudocount; the expected matrix is
constructed un-logged with pseudocount 0, so its cells start at 0. -/
def SeqWeightTable.init (la : ℚ) : SeqWeightTable :=
  { observed := fun _ _ => la, expected := fun _ => 0 }

/-- `SeqWeightTable::increment_expected` (lines 34-42): a unit linear
increment of the un-logged expected row at the nucleotide's column, skipped
for non-ACGT characters. -/
def SeqWeightTable.increment_expected (t : SeqWeightTable) (c : Char) :
    SeqWeightTable :=
  if ctoi c ≠ 4 then
    { t with expected := rowUpdate t.expected (ctoi c) (fun x => x + 1) }
  else t

/-- `SeqWeightTable::increment_observed` (lines 49-58): for every position
`i` of the window string whose character is a valid nucleotide, log-combines
`normalized_mass` into `_observed(i, ctoi(seq[i]))`.  The log-space combine
operation (`FrequencyMatrix::increment` in log mode, code not in the source
file) is modelled from the spec as a parameter `lse`. -/
def SeqWeightTable.increment_observed (lse : ℚ → ℚ → ℚ) (t : SeqWeightTable)
    (seq : List Char) (mass : ℚ) : SeqWeightTable :=
  let m :=
    (List.range seq.length).foldl
      (fun m i =>
        if ctoi (seq.getD i ' ') ≠ 4 then
          matUpdate m i (ctoi (seq.getD i ' ')) (fun x => lse x mass)
        else m)
      t.observed
  { t with observed := m }

/-- One addend of the `SeqWeightTable::get_weight` loop (lines 64-68): at
window offset `j` the sequence character is `seq[i + j - (CENTER-1)]`; valid
nucleotides contribute `observed(j, nuc) - expected(nuc)`, others nothing. -/
def windowTerm (t : SeqWeightTable) (seq : List Char) (i j : ℤ) : ℚ :=
  if ctoi (seq.getD (i + j - (CENTER - 1)).toNat ' ') ≠ 4 then
    t.observed j.toNat (ctoi (seq.getD (i + j - (CENTER - 1)).toNat ' '))
      - t.expected (ctoi (seq.getD (i + j - (CENTER - 1)).toNat ' '))
  else 0

/-- `SeqWeightTable::get_weight` (lines 60-71): starting from 0, accumulates
`windowTerm` for `j` from `max(0, CENTER-1-i)` up to (excluding)
`min(WINDOW, CENTER-1+seq.length()-i)`. -/
def SeqWeightTable.get_weight (t : SeqWeightTable) (seq : List Char)
    (i : ℤ) : ℚ :=
  ∑ j in Finset.Ico (max 0 (CENTER - 1 - i))
      (min WINDOW (CENTER - 1 + (seq.length : ℤ) - i)),
    windowTerm t seq i j

/-- State of `PosWeightTable` (lines 128-178): observed and expected
matrices shaped `len_bins.size() × pos_bins.size()` plus the two boundary
vectors.  The observed matrix is logged with pseudocount `alpha`, the
expected matrix un-logged with pseudocount 0, as in the constructor
(lines 128-133). -/
structure PosWeightTable where
  observed : ℕ → ℕ → ℚ
  expected : ℕ → ℕ → ℚ
  len_bins : List ℕ
  pos_bins : List ℚ

/-- The `PosWeightTable` constructor (lines 128-133), with `la` the log of
the pseudocount of the observed matrix (see `SeqWeightTable.init`). -/
def PosWeightTable.init (lb : List ℕ) (pb : List ℚ) (la : ℚ) :
    PosWeightTable :=
  { observed := fun _ _ => la, expected := fun _ _ => 0,
    len_bins := lb, pos_bins := pb }

/-- `PosWeightTable::increment_expected(size_t l, size_t p)`
(lines 142-146): unit linear increment of the expected cell. -/
def PosWeightTable.increment_expectedLP (t : PosWeightTable) (l p : ℕ) :
    PosWeightTable :=
  { t with expected := matUpdate t.expected l p (fun x => x + 1) }

/-- `PosWeightTable::increment_expected(size_t len, double pos)`
(lines 135-140): `std::upper_bound` lookups on both boundary vectors, then
the indexed increment. -/
def PosWeightTable.increment_expected (t : PosWeightTable) (len : ℕ)
    (pos : ℚ) : PosWeightTable :=
  t.increment_expectedLP (upperBound t.len_bins len) (upperBound t.pos_bins pos)

/-- `PosWeightTable::increment_observed(size_t l, size_t p, double mass)`
(lines 160-164), with the log-space combine modelled as `lse`. -/
def PosWeightTable.increment_observedLP (lse : ℚ → ℚ → ℚ)
    (t : PosWeightTable) (l p : ℕ) (mass : ℚ) : PosWeightTable :=
  { t with observed := matUpdate t.observed l p (fun x => lse x mass) }

/-- `PosWeightTable::increment_observed(size_t len, double pos, double mass)`
(lines 153-158). -/
def PosWeightTable.increment_observed (lse : ℚ → ℚ → ℚ)
    (t : PosWeightTable) (len : ℕ) (pos : ℚ) (mass : ℚ) : PosWeightTable :=
  t.increment_observedLP lse (upperBound t.len_bins len)
    (upperBound t.pos_bins pos) mass

/-- `PosWeightTable::get_weight(size_t l, size_t p)` (lines 174-178). -/
def PosWeightTable.get_weightLP (t : PosWeightTable) (l p : ℕ) : ℚ :=
  t.observed l p - t.expected l p

/-- `PosWeightTable::get_weight(size_t len, double pos)` (lines 166-172). -/
def PosWeightTable.get_weight (t : PosWeightTable) (len : ℕ) (pos : ℚ) : ℚ :=
  t.get_weightLP (upperBound t.len_bins len) (upperBound t.pos_bins pos)

/-- Modelled from the spec: the transcript store (`transcripts.h`, not in
the source file under analysis) exposes a sequence string and its length;
`Transcript::length()` is the length of `Transcript::seq()`. -/
structure Transcript where
  seq : List Char

/-- Transcript length. -/
def Transcript.length (t : Transcript) : ℕ := t.seq.length

/-- Modelled from the spec: pairing status of a fragment alignment
(`fragments.h`, not in the source file under analysis). -/
inductive PairStatus where
  | PAIRED
  | LEFT_ONLY
  | RIGHT_ONLY
deriving DecidableEq, Repr

/-- Modelled from the spec: a fragment alignment (`FragHit`, `fragments.h`)
exposes 0-based `left` and (exclusive) `right` coordinates, a pairing
status, and its mapped transcript's sequence (`hit.mapped_trans->seq()`). -/
structure FragHit where
  left : ℕ
  right : ℕ
  pair_status : PairStatus
  t_seq : List Char

/-- Modelled from the spec: the fragment length used by the line-265
assertion; with an exclusive `right` coordinate it is `right - left`
(truncated natural subtraction). -/
def FragHit.length (h : FragHit) : ℕ := h.right - h.left

/-- `std::string::substr(pos, cnt)`: fails (throws `out_of_range`) when
`pos` exceeds the string length, otherwise yields at most `cnt` characters
starting at `pos`. -/
def cppSubstr (s : List Char) (pos cnt : ℕ) : Option (List Char) :=
  if pos ≤ s.length then some ((s.drop pos).take cnt) else none

/-- The 5-prime window construction of `BiasBoss::update_observed`
(lines 271-281): `left_window = left - (CENTER-1)`; if negative, the window
is `PADDING.substr(0, -left_window)` followed by
`t_seq.substr(0, WINDOW + left_window)`, else `t_seq.substr(left_window,
WINDOW)`. -/
def seq5Window (hit : FragHit) : Option (List Char) :=
  let lw : ℤ := (hit.left : ℤ) - (CENTER - 1)
  if lw < 0 then
    match cppSubstr PADDING 0 (-lw).toNat,
          cppSubstr hit.t_seq 0 (WINDOW + lw).toNat with
    | some a, some b => some (a ++ b)
    | _, _ => none
  else cppSubstr hit.t_seq lw.toNat WINDOW.toNat

/-- The 3-prime window construction of `BiasBoss::update_observed`
(lines 289-296): `left_window = right - CENTER`; the line-290 assertion
compares `left_window < t_seq.length()` after the implicit `int → size_t`
conversion, so a negative `left_window` also fails it; then
`t_seq.substr(left_window, WINDOW)` padded on the right by
`PADDING.substr(0, overhang)` when `overhang = left_window + WINDOW -
t_seq.length()` is positive. -/
def seq3Window (hit : FragHit) : Option (List Char) :=
  let lw : ℤ := (hit.right : ℤ) - CENTER
  if 0 ≤ lw ∧ lw < (hit.t_seq.length : ℤ) then
    match cppSubstr hit.t_seq lw.toNat WINDOW.toNat with
    | some s =>
      let ov : ℤ := lw + WINDOW - (hit.t_seq.length : ℤ)
      if 0 < ov then
        match cppSubstr PADDING 0 ov.toNat with
        | some p => some (s ++ p)
        | none => none
      else some s
    | none => none
  else none

/-- State of `BiasBoss` (lines 228-233): the four tables. -/
structure BiasBoss where
  seq5 : SeqWeightTable
  seq3 : SeqWeightTable
  pos5 : PosWeightTable
  pos3 : PosWeightTable

/-- The `BiasBoss` constructor (lines 228-233), with `la` the log of the
pseudocount `alpha` (see `SeqWeightTable.init`). -/
def BiasBoss.init (la : ℚ) : BiasBoss :=
  { seq5 := SeqWeightTable.init la
    seq3 := SeqWeightTable.init la
    pos5 := PosWeightTable.init LEN_BINS POS_BINS la
    pos3 := PosWeightTable.init LEN_BINS POS_BINS la }

/-- The condition of the line-265 assertion of `BiasBoss::update_observed`:
`hit.pair_status() != PAIRED || hit.length() > WINDOW`. -/
def pairedLenAssert (hit : FragHit) : Prop :=
  hit.pair_status ≠ PairStatus.PAIRED ∨ 21 < hit.length

instance (hit : FragHit) : Decidable (pairedLenAssert hit) := by
  unfold pairedLenAssert; infer_instance

/-- `BiasBoss::update_observed` (lines 263-301).  A failed assertion (the
line-265 length check, or the line-290 window-bounds check inside
`seq3Window`) is modelled as `none`. -/
def BiasBoss.update_observed (lse : ℚ → ℚ → ℚ) (B : BiasBoss)
    (hit : FragHit) (mass : ℚ) : Option BiasBoss :=
  if pairedLenAssert hit then
    let len := hit.t_seq.length
    let step1 : Option BiasBoss :=
      if hit.pair_status ≠ PairStatus.RIGHT_ONLY then
        match seq5Window hit with
        | some s5 =>
          some { B with
            seq5 := SeqWeightTable.increment_observed lse B.seq5 s5 mass
            pos5 := PosWeightTable.increment_observed lse B.pos5 len
              ((hit.left : ℚ) / (len : ℚ)) mass }
        | none => none
      else some B
    match step1 with
    | none => none
    | some B1 =>
      if hit.pair_status ≠ PairStatus.LEFT_ONLY then
        match seq3Window hit with
        | some s3 =>
          some { B1 with
            seq3 := SeqWeightTable.increment_observed lse B1.seq3 s3 mass
            pos3 := PosWeightTable.increment_observed lse B1.pos3 len
              (((hit.right : ℚ) - 1) / (len : ℚ)) mass }
        | none => none
      else some B1
  else none

/-- The position-bin cursor of the `BiasBoss::update_expectations` loop
(lines 239-247): `posCursorUpd bins len i` is the pair
`(p, next_bin_start)` on entry to loop iteration `i`; the iteration first
advances the cursor when `i >= next_bin_start` and then increments at the
advanced `p`. -/
def posCursorUpd (bins : List ℚ) (len : ℕ) : ℕ → ℕ × ℚ
  | 0 => (0, (len : ℚ) * bins.getD 0 0)
  | i + 1 =>
    if (posCursorUpd bins len i).2 ≤ (i : ℚ) then
      ((posCursorUpd bins len i).1 + 1,
        (len : ℚ) * bins.getD ((posCursorUpd bins len i).1 + 1) 0)
    else posCursorUpd bins len i

/-- The position-bin cursor of the `BiasBoss::get_transcript_bias` loop
(lines 310-321), advanced by the same rule as in `update_expectations`. -/
def posCursorBias (bins : List ℚ) (len : ℕ) : ℕ → ℕ × ℚ
  | 0 => (0, (len : ℚ) * bins.getD 0 0)
  | i + 1 =>
    if (posCursorBias bins len i).2 ≤ (i : ℚ) then
      ((posCursorBias bins len i).1 + 1,
        (len : ℚ) * bins.getD ((posCursorBias bins len i).1 + 1) 0)
    else posCursorBias bins len i

/-- Loop state of `BiasBoss::update_expectations`: the mutated tables plus
the position-bin cursor `(p, next_bin_start)`. -/
structure UEState where
  B : BiasBoss
  p : ℕ
  nx : ℚ

/-- One iteration of the `BiasBoss::update_expectations` loop
(lines 242-252): advance the cursor when `i >= next_bin_start` (reading
`_5_pos_bias.pos_bins()`), then increment both position tables' expected
cells at `(l, p)` and both sequence tables' expected counts at `seq[i]`. -/
def updateExpectationsStep (l len : ℕ) (seq : List Char) (st : UEState)
    (i : ℕ) : UEState :=
  let pn :=
    if st.nx ≤ (i : ℚ) then
      (st.p + 1, (len : ℚ) * st.B.pos5.pos_bins.getD (st.p + 1) 0)
    else (st.p, st.nx)
  { B := { st.B with
      pos5 := st.B.pos5.increment_expectedLP l pn.1
      pos3 := st.B.pos3.increment_expectedLP l pn.1
      seq5 := st.B.seq5.increment_expected (seq.getD i ' ')
      seq3 := st.B.seq3.increment_expected (seq.getD i ' ') }
    p := pn.1
    nx := pn.2 }

/-- The first `n` iterations of the `BiasBoss::update_expectations` loop,
started from the initial cursor of lines 239-240. -/
def ueFold (B0 : BiasBoss) (l len : ℕ) (seq : List Char) (n : ℕ) :
    UEState :=
  (List.range n).foldl (updateExpectationsStep l len seq)
    { B := B0, p := 0, nx := (len : ℚ) * B0.pos5.pos_bins.getD 0 0 }

/-- `BiasBoss::update_expectations` (lines 235-253): the length bin `l` is
looked up once with `std::upper_bound` (line 238), then one forward sweep
over the sequence. -/
def BiasBoss.update_expectations (B : BiasBoss) (trans : Transcript) :
    BiasBoss :=
  (ueFold B (upperBound B.pos5.len_bins trans.length) trans.length
    trans.seq trans.length).B

/-- Loop state of `BiasBoss::get_transcript_bias`: the two bias curves
built so far, the two running totals, the position-bin cursor and the
cached current position weights. -/
structure GTBState where
  sb : List ℚ
  eb : List ℚ
  ts : ℚ
  te : ℚ
  p : ℕ
  nx : ℚ
  c5 : ℚ
  c3 : ℚ

/-- One iteration of the `BiasBoss::get_transcript_bias` loop
(lines 314-326): advance the cursor and refresh the cached position
weights when `i >= next_bin_start`; append
`start_bias[i] = seq5.get_weight(seq, i) + curr_5_pos_bias` and
`end_bias[i] = seq3.get_weight(seq, i) + curr_3_pos_bias`; then
`tot_start = log_sum(tot_start, start_bias[i])` and — exactly as in the
source line 325 — `tot_end = log_sum(tot_start, end_bias[i])` with the
already-updated `tot_start` as first argument. -/
def getTranscriptBiasStep (ls : ℚ → ℚ → ℚ) (B : BiasBoss) (l len : ℕ)
    (seq : List Char) (st : GTBState) (i : ℕ) : GTBState :=
  let adv :=
    if st.nx ≤ (i : ℚ) then
      (st.p + 1, (len : ℚ) * B.pos5.pos_bins.getD (st.p + 1) 0,
        B.pos5.get_weightLP l (st.p + 1), B.pos3.get_weightLP l (st.p + 1))
    else (st.p, st.nx, st.c5, st.c3)
  let s := B.seq5.get_weight seq (i : ℤ) + adv.2.2.1
  let e := B.seq3.get_weight seq (i : ℤ) + adv.2.2.2
  { sb := st.sb ++ [s]
    eb := st.eb ++ [e]
    ts := ls st.ts s
    te := ls (ls st.ts s) e
    p := adv.1
    nx := adv.2.1
    c5 := adv.2.2.1
    c3 := adv.2.2.2 }

/-- Result of `BiasBoss::get_transcript_bias`: the two per-base curves
written through the caller's vectors, the two running totals, and the
returned scalar `avg_bias`. -/
structure GTBResult where
  start_bias : List ℚ
  end_bias : List ℚ
  tot_start : ℚ
  tot_end : ℚ
  avg : ℚ

/-- The first `n` iterations of the `BiasBoss::get_transcript_bias` loop.
The numerically stable combine `log_sum` and the value
`log(trans.length())` live in `main.h`, which is not in the source file
under analysis; modelled from the spec, `ls` is the log-sum-exp combine,
`hv` the `HUGE_VAL` sentinel both totals start from, and (below) `lg`
stands for `log(trans.length())`. -/
def gtbFold (ls : ℚ → ℚ → ℚ) (B : BiasBoss) (l len : ℕ)
    (seq : List Char) (hv : ℚ) (n : ℕ) : GTBState :=
  (List.range n).foldl (getTranscriptBiasStep ls B l len seq)
    { sb := [], eb := [], ts := hv, te := hv, p := 0
      nx := (len : ℚ) * B.pos5.pos_bins.getD 0 0
      c5 := B.pos5.get_weightLP l 0, c3 := B.pos3.get_weightLP l 0 }

/-- The final loop state of `BiasBoss::get_transcript_bias` on a
transcript: `l` from the line-308 `std::upper_bound` lookup, cursor and
cached weights initialised as in lines 310-313, one iteration per base. -/
def gtbFinal (ls : ℚ → ℚ → ℚ) (hv : ℚ) (B : BiasBoss)
    (trans : Transcript) : GTBState :=
  gtbFold ls B (upperBound B.pos5.len_bins trans.length) trans.length
    trans.seq hv trans.length

/-- `BiasBoss::get_transcript_bias` (lines 303-330): the two curves, the
two totals, and the returned scalar
`avg_bias = (tot_start + tot_end) - 2*log(trans.length())` of line 328. -/
def BiasBoss.get_transcript_bias (ls : ℚ → ℚ → ℚ) (lg hv : ℚ)
    (B : BiasBoss) (trans : Transcript) : GTBResult :=
  { start_bias := (gtbFinal ls hv B trans).sb
    end_bias := (gtbFinal ls hv B trans).eb
    tot_start := (gtbFinal ls hv B trans).ts
    tot_end := (gtbFinal ls hv B trans).te
    avg := ((gtbFinal ls hv B trans).ts + (gtbFinal ls hv B trans).te)
      - 2 * lg }

/-- The `(length_bin, position_bin)` pair at which loop iteration `i` of
`BiasBoss::update_expectations` increments the expected position tables
(lines 238, 248-249). -/
def updIncrementPairAt (B : BiasBoss) (trans : Transcript) (i : ℕ) :
    ℕ × ℕ :=
  (upperBound B.pos5.len_bins trans.length,
    (posCursorUpd B.pos5.pos_bins trans.length (i + 1)).1)

/-- The `(length_bin, position_bin)` pair whose position weight
`BiasBoss::get_transcript_bias` adds into `start_bias[i]` and `end_bias[i]`
(lines 308, 318-323). -/
def biasReadPairAt (B : BiasBoss) (trans : Transcript) (i : ℕ) : ℕ × ℕ :=
  (upperBound B.pos5.len_bins trans.length,
    (posCursorBias B.pos5.pos_bins trans.length (i + 1)).1)

/-- The bin-lookup contract asserted by the specification: the lookup is
said to return the first index `idx` with `bins[idx] >= v`, every earlier
entry being strictly below `v`. -/
def isFirstGE {α : Type} [LinearOrder α] (bins : List α) (v : α)
    (idx : ℕ) : Prop :=
  (∃ h : idx < bins.length, v ≤ bins.get ⟨idx, h⟩) ∧
  ∀ j (h : j < bins.length), j < idx → bins.get ⟨j, h⟩ < v

/-- A concrete log-space combine used to instantiate the `lse`/`ls`
parameters in witnesses. -/
def lse0 : ℚ → ℚ → ℚ := fun x y => x + y

/-- A concrete sequence-weight table used in witnesses. -/
def tbl0 : SeqWeightTable := SeqWeightTable.init 0

/-- A concrete aggregator state used in witnesses. -/
def boss0 : BiasBoss := BiasBoss.init 0

/-- A fragment with `left = 0` on a transcript of fewer than 11 bases. -/
def hitShort : FragHit :=
  { left := 0, right := 1, pair_status := PairStatus.LEFT_ONLY,
    t_seq := ['A'] }

/-- A fragment with `left = 0` on a transcript of 11 bases. -/
def hitPad : FragHit :=
  { left := 0, right := 1, pair_status := PairStatus.LEFT_ONLY,
    t_seq := List.replicate 11 'C' }

/-- A right-mate-only fragment whose 3-prime update succeeds. -/
def hitRight : FragHit :=
  { left := 5, right := 11, pair_status := PairStatus.RIGHT_ONLY,
    t_seq := List.replicate 12 'A' }

/-- A left-mate-only fragment whose 5-prime update succeeds. -/
def hitLeft : FragHit :=
  { left := 0, right := 5, pair_status := PairStatus.LEFT_ONLY,
    t_seq := List.replicate 12 'A' }

/-- A paired fragment of length 5, violating the line-265 precondition. -/
def hitBad : FragHit :=
  { left := 0, right := 5, pair_status := PairStatus.PAIRED,
    t_seq := List.replicate 30 'A' }

/-- A paired fragment of length 30, satisfying the line-265
precondition. -/
def hitGood : FragHit :=
  { left := 0, right := 30, pair_status := PairStatus.PAIRED,
    t_seq := List.replicate 40 'A' }

/-- A one-base transcript used in witnesses. -/
def trans1 : Transcript := { seq := ['A'] }

/-! ## Theorems -/

lemma upperBound_prefix_le {α : Type} [LinearOrder α] :
    ∀ (bins : List α) (v : α) (j : ℕ),
      j < upperBound bins v → bins.getD j v ≤ v := by
  intro bins
  induction bins with
  | nil => intro v j hj; simp [upperBound] at hj
  | cons b rest ih =>
    intro v j hj
    by_cases hvb : v < b
    · simp [upperBound, hvb] at hj
    · cases j with
      | zero => simpa using le_of_not_lt hvb
      | succ j =>
        simp only [upperBound, if_neg hvb] at hj
        simpa using ih v j (by omega)

lemma upperBound_get_lt {α : Type} [LinearOrder α] :
    ∀ (bins : List α) (v : α),
      upperBound bins v < bins.length →
        v < bins.getD (upperBound bins v) v := by
  intro bins
  induction bins with
  | nil => intro v h; simp [upperBound] at h
  | cons b rest ih =>
    intro v h
    by_cases hvb : v < b
    · simp [upperBound, hvb]
    · simp only [upperBound, if_neg hvb] at h ⊢
      simpa using ih v (by simpa using h)

/-- Claim C2 (counterexample): the bin lookup does not satisfy the
first-index-with-`bins[b] >= v` contract — at the exact boundary value
`0.1` of `POS_BINS` the code's `std::upper_bound` lookup returns index 1,
whose every earlier entry is not strictly below the value; and fractional
position `1.0` resolves to index `POS_BINS.size()`, one past the last
valid index, not to the last bin. -/
theorem c2_lookup_ge_counterexample :
    ¬ isFirstGE POS_BINS (1/10) (upperBound POS_BINS (1/10)) ∧
    upperBound POS_BINS 1 ≠ POS_BINS.length - 1 := by
  constructor
  · rw [show upperBound POS_BINS (1/10) = 1 from by
      norm_num [upperBound, POS_BINS]]
    rintro ⟨-, h⟩
    have h0 := h 0 (by decide) (by decide)
    norm_num [POS_BINS] at h0
  · rw [show upperBound POS_BINS 1 = 10 from by
      norm_num [upperBound, POS_BINS]]
    decide

/-- Claim C2 (amended): the bin lookup used by `increment_expected`,
`increment_observed` and `get_weight` is `std::upper_bound`: it returns
the first index `b` such that `bins[b] > v` (strict), so every entry
before the returned index is `≤ v` and the entry at it (when in range) is
`> v`; a value exactly equal to a boundary therefore falls into the
following bin, and fractional position `1.0` resolves to
`POS_BINS.size()`, one past the last bin index. -/
theorem c2_upper_bound_semantics :
    (∀ {α : Type} [LinearOrder α] (bins : List α) (v : α) (j : ℕ),
        j < upperBound bins v → bins.getD j v ≤ v) ∧
    (∀ {α : Type} [LinearOrder α] (bins : List α) (v : α),
        upperBound bins v < bins.length →
          v < bins.getD (upperBound bins v) v) ∧
    upperBound POS_BINS 1 = POS_BINS.length ∧
    (∀ (t : PosWeightTable) (len : ℕ) (pos : ℚ),
        t.get_weight len pos =
          t.get_weightLP (upperBound t.len_bins len)
            (upperBound t.pos_bins pos) ∧
        t.increment_expected len pos =
          t.increment_expectedLP (upperBound t.len_bins len)
            (upperBound t.pos_bins pos)) ∧
    (∀ (lse : ℚ → ℚ → ℚ) (t : PosWeightTable) (len : ℕ) (pos mass : ℚ),
        PosWeightTable.increment_observed lse t len pos mass =
          PosWeightTable.increment_observedLP lse t
            (upperBound t.len_bins len) (upperBound t.pos_bins pos) mass) := by
  refine ⟨fun bins v j h => upperBound_prefix_le bins v j h,
    fun bins v h => upperBound_get_lt bins v h,
    by norm_num [upperBound, POS_BINS],
    fun t len pos => ⟨rfl, rfl⟩,
    fun lse t len pos mass => rfl⟩

/-- Witness for C2: concrete application at `POS_BINS` and value `1/2`
(whose lookup index is 5). -/
theorem c2_upper_bound_semantics_witness :
    POS_BINS.getD 0 (1/2) ≤ 1/2 ∧
    (1/2 : ℚ) < POS_BINS.getD (upperBound POS_BINS (1/2)) (1/2) :=
  ⟨c2_upper_bound_semantics.1 POS_BINS (1/2) 0
      (by norm_num [upperBound, POS_BINS]),
    c2_upper_bound_semantics.2.1 POS_BINS (1/2)
      (by norm_num [upperBound, POS_BINS])⟩

/-- Claim C4 (counterexample): with empty tables the weight is not the
neutral 0.0 for every pseudocount: for a pseudocount of log-value 1
(`alpha = e > 0`), a one-base window query returns 1, not 0. -/
theorem c4_fresh_table_counterexample :
    SeqWeightTable.get_weight (SeqWeightTable.init 1) ['A'] 0 = 1 ∧
    (1 : ℚ) ≠ 0 := by
  constructor
  · norm_num [SeqWeightTable.get_weight, windowTerm, CENTER, WINDOW,
      SeqWeightTable.init, ctoi,
      show Finset.Ico (10:ℤ) 11 = {10} from by decide, Finset.sum_singleton]
  · norm_num

/-- Claim C4 (amended): on a freshly constructed table with no observed
and no expected data, `get_weight` equals `k * log(alpha)` where `k` is
the number of in-bounds valid-nucleotide window positions (the observed
cells start at `log(alpha)`, the alpha-0 expected cells at 0).  It is
therefore finite for every `alpha > 0`, and equal to the neutral 0.0
exactly when no window position contributes or `alpha = 1`.  Here `la`
is the log of the pseudocount (see `SeqWeightTable.init`). -/
theorem c4_fresh_table_weight (la : ℚ) (seq : List Char) (i : ℤ) :
    SeqWeightTable.get_weight (SeqWeightTable.init la) seq i =
      (((Finset.Ico (max 0 (CENTER - 1 - i))
          (min WINDOW (CENTER - 1 + (seq.length : ℤ) - i))).filter
          (fun j =>
            ctoi (seq.getD (i + j - (CENTER - 1)).toNat ' ') ≠ 4)).card
        : ℚ) * la := by
  unfold SeqWeightTable.get_weight
  rw [Finset.sum_congr rfl
    (fun j _ =>
      show windowTerm (SeqWeightTable.init la) seq i j =
        if ctoi (seq.getD (i + j - (CENTER - 1)).toNat ' ') ≠ 4
        then la else 0
      from by simp [windowTerm, SeqWeightTable.init])]
  rw [← Finset.sum_filter, Finset.sum_const, nsmul_eq_mul]

/-- Claim C3: `SeqWeightTable::get_weight` sums
`observed[j][nuc] - expected[nuc]` exactly over the window offsets `j` of
the up-to-`WINDOW`(=21)-base window starting `CENTER-1`(=10) positions
before `i` whose sequence position `i + j - (CENTER-1)` lies inside the
bounds of `seq` (non-ACGT characters contributing nothing), and returns
the neutral log-weight 0.0 when no window position contributes. -/
theorem c3_get_weight_window_sum (t : SeqWeightTable) (seq : List Char)
    (i : ℤ) :
    SeqWeightTable.get_weight t seq i =
      (∑ j in Finset.Ico (0:ℤ) WINDOW,
        if 0 ≤ i + j - (CENTER - 1) ∧
            i + j - (CENTER - 1) < (seq.length : ℤ)
        then windowTerm t seq i j else 0) ∧
    ((∀ j ∈ Finset.Ico (0:ℤ) WINDOW,
        0 ≤ i + j - (CENTER - 1) →
        i + j - (CENTER - 1) < (seq.length : ℤ) →
        ctoi (seq.getD (i + j - (CENTER - 1)).toNat ' ') = 4) →
      SeqWeightTable.get_weight t seq i = 0) := by
  have h1 : SeqWeightTable.get_weight t seq i =
      ∑ j in Finset.Ico (0:ℤ) WINDOW,
        if 0 ≤ i + j - (CENTER - 1) ∧
            i + j - (CENTER - 1) < (seq.length : ℤ)
        then windowTerm t seq i j else 0 := by
    unfold SeqWeightTable.get_weight
    rw [← Finset.sum_filter]
    refine Finset.sum_congr ?_ (fun _ _ => rfl)
    ext j
    simp only [Finset.mem_filter, Finset.mem_Ico, CENTER, WINDOW]
    omega
  refine ⟨h1, fun hall => ?_⟩
  rw [h1]
  refine Finset.sum_eq_zero (fun j hj => ?_)
  by_cases hb : 0 ≤ i + j - (CENTER - 1) ∧
      i + j - (CENTER - 1) < (seq.length : ℤ)
  · rw [if_pos hb]
    have h4 := hall j hj hb.1 hb.2
    unfold windowTerm
    exact if_neg (fun hc => hc h4)
  · rw [if_neg hb]

/-- Witness for C3: on an all-N sequence every in-bounds window position
is invalid, so the weight is the neutral 0.0. -/
theorem c3_get_weight_window_sum_witness :
    SeqWeightTable.get_weight tbl0 (List.replicate 25 'N') 12 = 0 :=
  (c3_get_weight_window_sum tbl0 (List.replicate 25 'N') 12).2 (by decide)

/-- Claim C5 (counterexample): a fragment with `left = 0` that is not
right-mate-only does not always get a 5-prime window of length exactly
`WINDOW` = 21: on a one-base transcript the window has length 11. -/
theorem c5_short_transcript_counterexample :
    hitShort.left = 0 ∧ hitShort.pair_status ≠ PairStatus.RIGHT_ONLY ∧
    (seq5Window hitShort).map List.length ≠ some 21 := by decide

/-- Claim C5 (amended): for a fragment with `left = 0` that is not
right-mate-only, on a transcript with at least `WINDOW-(CENTER-1)` = 11
bases, the 5-prime window is exactly `CENTER-1` = 10 copies of the neutral
padding symbol followed by the first 11 transcript characters, and its
length is exactly `WINDOW` = 21. -/
theorem c5_left_zero_window_padding (hit : FragHit) (h0 : hit.left = 0)
    (_hstat : hit.pair_status ≠ PairStatus.RIGHT_ONLY)
    (hlen : 11 ≤ hit.t_seq.length) :
    seq5Window hit = some (List.replicate 10 'N' ++ hit.t_seq.take 11) ∧
    ∀ w ∈ seq5Window hit,
      w.length = 21 ∧ w.take 10 = List.replicate 10 'N' := by
  have hw : seq5Window hit =
      some (List.replicate 10 'N' ++ hit.t_seq.take 11) := by
    unfold seq5Window cppSubstr
    rw [h0]
    norm_num [PADDING, CENTER, WINDOW,
      show Int.toNat 10 = 10 from rfl, show Int.toNat 11 = 11 from rfl]
  refine ⟨hw, fun w hwmem => ?_⟩
  rw [hw, Option.mem_some_iff] at hwmem
  subst hwmem
  constructor
  · simp only [List.length_append, List.length_replicate, List.length_take]
    omega
  · rw [show (10 : ℕ) = (List.replicate 10 'N').length from by simp]
    exact List.take_left _ _

/-- Witness for C5: the amended claim at a concrete 11-base transcript. -/
theorem c5_left_zero_window_padding_witness :
    seq5Window hitPad =
      some (List.replicate 10 'N' ++ hitPad.t_seq.take 11) ∧
    ∀ w ∈ seq5Window hitPad,
      w.length = 21 ∧ w.take 10 = List.replicate 10 'N' :=
  c5_left_zero_window_padding hitPad (by decide) (by decide) (by decide)

/-- Claim C7: `BiasBoss::update_observed` requires a paired fragment to be
strictly longer than `WINDOW` = 21: when the line-265 assertion condition
fails the call is a fatal assertion (modelled `none`), not a recoverable
update, and the precondition (paired implies length above `WINDOW`) makes
that assertion branch unreachable. -/
theorem c7_paired_length_assert :
    (∀ (hit : FragHit) (lse : ℚ → ℚ → ℚ) (B : BiasBoss) (mass : ℚ),
        ¬ pairedLenAssert hit →
        BiasBoss.update_observed lse B hit mass = none) ∧
    (∀ hit : FragHit,
        (hit.pair_status = PairStatus.PAIRED → 21 < hit.length) →
        pairedLenAssert hit) := by
  constructor
  · intro hit lse B mass h
    unfold BiasBoss.update_observed
    rw [if_neg h]
  · intro hit h
    by_cases hp : hit.pair_status = PairStatus.PAIRED
    · exact Or.inr (h hp)
    · exact Or.inl hp

/-- Witness for C7: a length-5 paired fragment fails the assertion and the
call aborts; a length-30 paired fragment satisfies the precondition and
passes the assertion. -/
theorem c7_paired_length_assert_witness :
    BiasBoss.update_observed lse0 boss0 hitBad 1 = none ∧
    pairedLenAssert hitGood :=
  ⟨c7_paired_length_assert.1 hitBad lse0 boss0 1 (by decide),
    c7_paired_length_assert.2 hitGood (by decide)⟩

/-- Claim C6: a right-mate-only fragment leaves the 5-prime sequence table
and the 5-prime position table unchanged, and a left-mate-only fragment
leaves the 3-prime sequence table and the 3-prime position table
unchanged (whatever `update_observed` returns, the corresponding fields of
any returned state equal the old ones). -/
theorem c6_one_sided_frame (lse : ℚ → ℚ → ℚ) (B : BiasBoss)
    (hit : FragHit) (mass : ℚ) :
    (hit.pair_status = PairStatus.RIGHT_ONLY →
      (BiasBoss.update_observed lse B hit mass).map BiasBoss.seq5 =
        (BiasBoss.update_observed lse B hit mass).map (fun _ => B.seq5) ∧
      (BiasBoss.update_observed lse B hit mass).map BiasBoss.pos5 =
        (BiasBoss.update_observed lse B hit mass).map (fun _ => B.pos5)) ∧
    (hit.pair_status = PairStatus.LEFT_ONLY →
      (BiasBoss.update_observed lse B hit mass).map BiasBoss.seq3 =
        (BiasBoss.update_observed lse B hit mass).map (fun _ => B.seq3) ∧
      (BiasBoss.update_observed lse B hit mass).map BiasBoss.pos3 =
        (BiasBoss.update_observed lse B hit mass).map (fun _ => B.pos3)) := by
  constructor
  · intro h
    cases hw : seq3Window hit with
    | none => simp [BiasBoss.update_observed, pairedLenAssert, h, hw]
    | some s3 => simp [BiasBoss.update_observed, pairedLenAssert, h, hw]
  · intro h
    cases hw : seq5Window hit with
    | none => simp [BiasBoss.update_observed, pairedLenAssert, h, hw]
    | some s5 => simp [BiasBoss.update_observed, pairedLenAssert, h, hw]

/-- Witness for C6: concrete one-sided fragments on a 12-base
transcript. -/
theorem c6_one_sided_frame_witness :
    ((BiasBoss.update_observed lse0 boss0 hitRight 1).map BiasBoss.seq5 =
      (BiasBoss.update_observed lse0 boss0 hitRight 1).map
        (fun _ => boss0.seq5) ∧
     (BiasBoss.update_observed lse0 boss0 hitRight 1).map BiasBoss.pos5 =
      (BiasBoss.update_observed lse0 boss0 hitRight 1).map
        (fun _ => boss0.pos5)) ∧
    ((BiasBoss.update_observed lse0 boss0 hitLeft 1).map BiasBoss.seq3 =
      (BiasBoss.update_observed lse0 boss0 hitLeft 1).map
        (fun _ => boss0.seq3) ∧
     (BiasBoss.update_observed lse0 boss0 hitLeft 1).map BiasBoss.pos3 =
      (BiasBoss.update_observed lse0 boss0 hitLeft 1).map
        (fun _ => boss0.pos3)) :=
  ⟨(c6_one_sided_frame lse0 boss0 hitRight 1).1 (by decide),
    (c6_one_sided_frame lse0 boss0 hitLeft 1).2 (by decide)⟩

lemma increment_observed_cell (lse : ℚ → ℚ → ℚ) (seq : List Char)
    (mass : ℚ) (m0 : ℕ → ℕ → ℚ) :
    ∀ (n : ℕ) (a b : ℕ),
      ((List.range n).foldl
        (fun m i =>
          if ctoi (seq.getD i ' ') ≠ 4 then
            matUpdate m i (ctoi (seq.getD i ' ')) (fun x => lse x mass)
          else m) m0) a b =
      (if a < n ∧ ctoi (seq.getD a ' ') = b ∧ ctoi (seq.getD a ' ') ≠ 4
       then lse (m0 a b) mass else m0 a b) := by
  intro n
  induction n with
  | zero => intro a b; simp
  | succ n ih =>
    intro a b
    rw [List.range_succ, List.foldl_append, List.foldl_cons, List.foldl_nil]
    by_cases hv : ctoi (seq.getD n ' ') ≠ 4
    · rw [if_pos hv]
      show (if a = n ∧ b = ctoi (seq.getD n ' ')
        then lse (((List.range n).foldl _ m0) a b) mass
        else ((List.range n).foldl _ m0) a b) = _
      by_cases hab : a = n ∧ b = ctoi (seq.getD n ' ')
      · obtain ⟨ha, hb⟩ := hab
        subst ha; subst hb
        rw [if_pos ⟨rfl, rfl⟩, ih,
          if_neg (fun hc => lt_irrefl a hc.1),
          if_pos ⟨Nat.lt_succ_self a, rfl, hv⟩]
      · rw [if_neg hab, ih]
        refine if_congr ?_ rfl rfl
        constructor
        · rintro ⟨h1, h2, h3⟩; exact ⟨by omega, h2, h3⟩
        · rintro ⟨h1, h2, h3⟩
          refine ⟨?_, h2, h3⟩
          rcases Nat.lt_succ_iff_lt_or_eq.mp h1 with h | h
          · exact h
          · exact absurd ⟨h, by rw [← h2, h]⟩ hab
    · rw [if_neg hv]
      push_neg at hv
      rw [ih]
      refine if_congr ?_ rfl rfl
      constructor
      · rintro ⟨h1, h2, h3⟩; exact ⟨by omega, h2, h3⟩
      · rintro ⟨h1, h2, h3⟩
        refine ⟨?_, h2, h3⟩
        rcases Nat.lt_succ_iff_lt_or_eq.mp h1 with h | h
        · exact h
        · exact absurd (h ▸ hv) (h ▸ h3)

/-- Claim C8: for every input character outside A, C, G, T
(case-insensitively, including the padding symbol N),
`SeqWeightTable::increment_expected` and
`SeqWeightTable::increment_observed` leave every cell of both the observed
and expected matrices unchanged: an invalid character is a no-op for
`increment_expected`; an observed cell changes (receiving mass exactly
once) only when the window character at its row is a valid nucleotide
mapping to its column; the expected matrix is never touched by
`increment_observed`; and a window of only invalid characters leaves the
whole table unchanged. -/
theorem c8_invalid_chars_ignored :
    (∀ (t : SeqWeightTable) (c : Char), ctoi c = 4 →
        SeqWeightTable.increment_expected t c = t) ∧
    (∀ (lse : ℚ → ℚ → ℚ) (t : SeqWeightTable) (seq : List Char)
        (mass : ℚ) (a b : ℕ),
        (SeqWeightTable.increment_observed lse t seq mass).observed a b =
          (if a < seq.length ∧ ctoi (seq.getD a ' ') = b ∧
              ctoi (seq.getD a ' ') ≠ 4
           then lse (t.observed a b) mass else t.observed a b)) ∧
    (∀ (lse : ℚ → ℚ → ℚ) (t : SeqWeightTable) (seq : List Char)
        (mass : ℚ),
        (SeqWeightTable.increment_observed lse t seq mass).expected =
          t.expected) ∧
    (∀ (lse : ℚ → ℚ → ℚ) (t : SeqWeightTable) (seq : List Char)
        (mass : ℚ),
        (∀ i, i < seq.length → ctoi (seq.getD i ' ') = 4) →
        SeqWeightTable.increment_observed lse t seq mass = t) := by
  refine ⟨?_, ?_, ?_, ?_⟩
  · intro t c h
    unfold SeqWeightTable.increment_expected
    rw [if_neg (fun hc => hc h)]
  · intro lse t seq mass a b
    exact increment_observed_cell lse seq mass t.observed seq.length a b
  · intro lse t seq mass
    rfl
  · intro lse t seq mass h
    have hobs : (SeqWeightTable.increment_observed lse t seq mass).observed
        = t.observed := by
      funext a b
      exact (increment_observed_cell lse seq mass t.observed
        seq.length a b).trans (if_neg (fun hc => hc.2.2 (h a hc.1)))
    cases t
    simp only [SeqWeightTable.increment_observed] at hobs ⊢
    rw [SeqWeightTable.mk.injEq]
    exact ⟨hobs, rfl⟩

/-- Witness for C8: the invalid characters N and x change nothing. -/
theorem c8_invalid_chars_ignored_witness :
    SeqWeightTable.increment_expected tbl0 'N' = tbl0 ∧
    SeqWeightTable.increment_observed lse0 tbl0 ['N', 'x'] 1 = tbl0 :=
  ⟨c8_invalid_chars_ignored.1 tbl0 'N' (by decide),
    c8_invalid_chars_ignored.2.2.2 lse0 tbl0 ['N', 'x'] 1 (by decide)⟩

lemma posCursorUpd_succ (bins : List ℚ) (len i : ℕ) :
    posCursorUpd bins len (i + 1) =
      (if (posCursorUpd bins len i).2 ≤ (i : ℚ) then
        ((posCursorUpd bins len i).1 + 1,
          (len : ℚ) * bins.getD ((posCursorUpd bins len i).1 + 1) 0)
      else posCursorUpd bins len i) := rfl

lemma posCursorBias_succ (bins : List ℚ) (len i : ℕ) :
    posCursorBias bins len (i + 1) =
      (if (posCursorBias bins len i).2 ≤ (i : ℚ) then
        ((posCursorBias bins len i).1 + 1,
          (len : ℚ) * bins.getD ((posCursorBias bins len i).1 + 1) 0)
      else posCursorBias bins len i) := rfl

lemma posCursor_eq (bins : List ℚ) (len : ℕ) :
    ∀ i, posCursorUpd bins len i = posCursorBias bins len i := by
  intro i
  induction i with
  | zero => rfl
  | succ i ih => unfold posCursorUpd posCursorBias; rw [ih]

lemma posCursorUpd_inv (len : ℕ) :
    ∀ i, i ≤ len →
      (posCursorUpd POS_BINS len i).1 ≤ 9 ∧
      (posCursorUpd POS_BINS len i).2 =
        (len : ℚ) * POS_BINS.getD (posCursorUpd POS_BINS len i).1 0 := by
  intro i
  induction i with
  | zero => intro _; exact ⟨by norm_num [posCursorUpd], rfl⟩
  | succ i ih =>
    intro hle
    obtain ⟨hp, hnx⟩ := ih (by omega)
    by_cases htr : (posCursorUpd POS_BINS len i).2 ≤ (i : ℚ)
    · have hp9 : (posCursorUpd POS_BINS len i).1 ≠ 9 := by
        intro h9
        rw [h9] at hnx
        rw [show POS_BINS.getD 9 0 = 1 from rfl, mul_one] at hnx
        rw [hnx] at htr
        exact absurd htr
          (not_le.mpr (by exact_mod_cast (by omega : i < len)))
      rw [posCursorUpd_succ, if_pos htr]
      exact ⟨by omega, rfl⟩
    · rw [posCursorUpd_succ, if_neg htr]
      exact ⟨hp, hnx⟩

lemma posCursorUpd_step_le (bins : List ℚ) (len : ℕ) (i : ℕ) :
    (posCursorUpd bins len (i + 1)).1 ≤ (posCursorUpd bins len i).1 + 1 := by
  rw [posCursorUpd_succ]
  by_cases htr : (posCursorUpd bins len i).2 ≤ (i : ℚ)
  · rw [if_pos htr]
  · rw [if_neg htr]; omega

/-- Claim C10: in the position-bin sweeps of both
`BiasBoss::update_expectations` and `BiasBoss::get_transcript_bias`,
because the last entry of `POS_BINS` is 1.0 and the loop index stays
strictly below the transcript length, the cursor `p` is advanced at most
once per position and never exceeds the last valid index of `POS_BINS`,
so every `pos_bins()[p]` read (including the one inside the `++p`
advance) is within bounds for every non-empty transcript. -/
theorem c10_pos_cursor_safety (len : ℕ) (_h0 : 0 < len) (i : ℕ)
    (hi : i < len) :
    (posCursorUpd POS_BINS len (i + 1)).1 < POS_BINS.length ∧
    (posCursorUpd POS_BINS len (i + 1)).1 ≤
      (posCursorUpd POS_BINS len i).1 + 1 ∧
    (posCursorBias POS_BINS len (i + 1)).1 < POS_BINS.length ∧
    (posCursorBias POS_BINS len (i + 1)).1 ≤
      (posCursorBias POS_BINS len i).1 + 1 := by
  have h1 := (posCursorUpd_inv len (i + 1) (by omega)).1
  have h2 := posCursorUpd_step_le POS_BINS len i
  have hlen : POS_BINS.length = 10 := rfl
  refine ⟨by omega, h2, ?_, ?_⟩
  · rw [← posCursor_eq]; omega
  · rw [← posCursor_eq, ← posCursor_eq]; exact h2

/-- Witness for C10: the cursor bounds at a concrete length-3 transcript
and position 1. -/
theorem c10_pos_cursor_safety_witness :
    (posCursorUpd POS_BINS 3 2).1 < POS_BINS.length ∧
    (posCursorUpd POS_BINS 3 2).1 ≤ (posCursorUpd POS_BINS 3 1).1 + 1 ∧
    (posCursorBias POS_BINS 3 2).1 < POS_BINS.length ∧
    (posCursorBias POS_BINS 3 2).1 ≤ (posCursorBias POS_BINS 3 1).1 + 1 :=
  c10_pos_cursor_safety 3 (by decide) 1 (by decide)

lemma ueFold_succ (B0 : BiasBoss) (l len : ℕ) (seq : List Char) (n : ℕ) :
    ueFold B0 l len seq (n + 1) =
      updateExpectationsStep l len seq (ueFold B0 l len seq n) n := by
  unfold ueFold
  rw [List.range_succ, List.foldl_append, List.foldl_cons, List.foldl_nil]

lemma ue_step_cursor (l len : ℕ) (seq : List Char) (st : UEState)
    (i : ℕ) :
    ((updateExpectationsStep l len seq st i).p,
      (updateExpectationsStep l len seq st i).nx) =
      (if st.nx ≤ (i : ℚ) then
        (st.p + 1, (len : ℚ) * st.B.pos5.pos_bins.getD (st.p + 1) 0)
      else (st.p, st.nx)) := by
  unfold updateExpectationsStep
  by_cases h : st.nx ≤ (i : ℚ) <;> simp [h]

lemma ue_step_bins (l len : ℕ) (seq : List Char) (st : UEState) (i : ℕ) :
    (updateExpectationsStep l len seq st i).B.pos5.pos_bins =
      st.B.pos5.pos_bins := rfl

lemma ue_step_pos5_expected (l len : ℕ) (seq : List Char) (st : UEState)
    (i : ℕ) (a b : ℕ) :
    (updateExpectationsStep l len seq st i).B.pos5.expected a b =
      (if a = l ∧ b = (updateExpectationsStep l len seq st i).p
       then st.B.pos5.expected a b + 1 else st.B.pos5.expected a b) := by
  unfold updateExpectationsStep PosWeightTable.increment_expectedLP
    matUpdate
  by_cases h : st.nx ≤ (i : ℚ) <;> simp [h]

lemma ue_step_pos3_expected (l len : ℕ) (seq : List Char) (st : UEState)
    (i : ℕ) (a b : ℕ) :
    (updateExpectationsStep l len seq st i).B.pos3.expected a b =
      (if a = l ∧ b = (updateExpectationsStep l len seq st i).p
       then st.B.pos3.expected a b + 1 else st.B.pos3.expected a b) := by
  unfold updateExpectationsStep PosWeightTable.increment_expectedLP
    matUpdate
  by_cases h : st.nx ≤ (i : ℚ) <;> simp [h]

lemma ueFold_inv (B0 : BiasBoss) (l len : ℕ) (seq : List Char) :
    ∀ n,
      (ueFold B0 l len seq n).B.pos5.pos_bins = B0.pos5.pos_bins ∧
      ((ueFold B0 l len seq n).p, (ueFold B0 l len seq n).nx) =
        posCursorUpd B0.pos5.pos_bins len n ∧
      (∀ a b,
        (ueFold B0 l len seq n).B.pos5.expected a b =
          B0.pos5.expected a b +
            (((List.range n).filter (fun i => a = l ∧
              b = (posCursorUpd B0.pos5.pos_bins len (i + 1)).1)).length
              : ℚ)) ∧
      (∀ a b,
        (ueFold B0 l len seq n).B.pos3.expected a b =
          B0.pos3.expected a b +
            (((List.range n).filter (fun i => a = l ∧
              b = (posCursorUpd B0.pos5.pos_bins len (i + 1)).1)).length
              : ℚ)) := by
  intro n
  induction n with
  | zero =>
    refine ⟨rfl, rfl, fun a b => by simp [ueFold], fun a b => by
      simp [ueFold]⟩
  | succ n ih =>
    obtain ⟨hbins, hcur, h5, h3⟩ := ih
    have hcurp : (ueFold B0 l len seq n).p =
        (posCursorUpd B0.pos5.pos_bins len n).1 := by rw [← hcur]
    have hcurn : (ueFold B0 l len seq n).nx =
        (posCursorUpd B0.pos5.pos_bins len n).2 := by rw [← hcur]
    have hstepc := ue_step_cursor l len seq (ueFold B0 l len seq n) n
    rw [hbins, hcurp, hcurn] at hstepc
    have hc1 : ((updateExpectationsStep l len seq
          (ueFold B0 l len seq n) n).p,
        (updateExpectationsStep l len seq (ueFold B0 l len seq n) n).nx) =
        posCursorUpd B0.pos5.pos_bins len (n + 1) := by
      rw [hstepc, posCursorUpd_succ]
    have hp1 : (updateExpectationsStep l len seq
          (ueFold B0 l len seq n) n).p =
        (posCursorUpd B0.pos5.pos_bins len (n + 1)).1 := by rw [← hc1]
    refine ⟨?_, ?_, ?_, ?_⟩
    · rw [ueFold_succ, ue_step_bins]; exact hbins
    · rw [ueFold_succ]; exact hc1
    · intro a b
      rw [ueFold_succ, ue_step_pos5_expected, hp1, List.range_succ,
        List.filter_append, List.length_append, List.filter_singleton]
      by_cases hab : a = l ∧ b = (posCursorUpd B0.pos5.pos_bins len
          (n + 1)).1
      · rw [if_pos hab, h5 a b, decide_eq_true hab]
        simp only [Bool.cond_true, List.length_singleton]
        push_cast
        ring
      · rw [if_neg hab, h5 a b, decide_eq_false hab]
        simp only [Bool.cond_false, List.length_nil, Nat.add_zero]
    · intro a b
      rw [ueFold_succ, ue_step_pos3_expected, hp1, List.range_succ,
        List.filter_append, List.length_append, List.filter_singleton]
      by_cases hab : a = l ∧ b = (posCursorUpd B0.pos5.pos_bins len
          (n + 1)).1
      · rw [if_pos hab, h3 a b, decide_eq_true hab]
        simp only [Bool.cond_true, List.length_singleton]
        push_cast
        ring
      · rw [if_neg hab, h3 a b, decide_eq_false hab]
        simp only [Bool.cond_false, List.length_nil, Nat.add_zero]

/-- Substantiation for `updIncrementPairAt`: `update_expectations` adds
to each expected cell of the two position tables exactly one unit count
per loop iteration whose `(length_bin, position_bin)` pair is that
cell. -/
theorem update_expectations_expected_cells (B : BiasBoss)
    (trans : Transcript) (a b : ℕ) :
    (BiasBoss.update_expectations B trans).pos5.expected a b =
      B.pos5.expected a b +
        (((List.range trans.length).filter (fun i =>
          a = (updIncrementPairAt B trans i).1 ∧
          b = (updIncrementPairAt B trans i).2)).length : ℚ) ∧
    (BiasBoss.update_expectations B trans).pos3.expected a b =
      B.pos3.expected a b +
        (((List.range trans.length).filter (fun i =>
          a = (updIncrementPairAt B trans i).1 ∧
          b = (updIncrementPairAt B trans i).2)).length : ℚ) :=
  ⟨(ueFold_inv B (upperBound B.pos5.len_bins trans.length) trans.length
      trans.seq trans.length).2.2.1 a b,
    (ueFold_inv B (upperBound B.pos5.len_bins trans.length) trans.length
      trans.seq trans.length).2.2.2 a b⟩

/-- Claim C9: for every transcript and every base position `i`, the
`(length_bin, position_bin)` pair at which `update_expectations`
increments the expected position tables for position `i` is exactly the
pair at which `get_transcript_bias` reads the position-table weight for
position `i` — the forward position-bin cursor advances identically in
both sweeps. -/
theorem c9_binning_agreement (B : BiasBoss) (trans : Transcript) (i : ℕ) :
    updIncrementPairAt B trans i = biasReadPairAt B trans i := by
  unfold updIncrementPairAt biasReadPairAt
  rw [posCursor_eq]

lemma gtbFold_succ (ls : ℚ → ℚ → ℚ) (B : BiasBoss) (l len : ℕ)
    (seq : List Char) (hv : ℚ) (n : ℕ) :
    gtbFold ls B l len seq hv (n + 1) =
      getTranscriptBiasStep ls B l len seq (gtbFold ls B l len seq hv n)
        n := by
  unfold gtbFold
  rw [List.range_succ, List.foldl_append, List.foldl_cons, List.foldl_nil]

lemma gtb_step_eval (ls : ℚ → ℚ → ℚ) (B : BiasBoss) (l len : ℕ)
    (seq : List Char) (st : GTBState) (i : ℕ) :
    getTranscriptBiasStep ls B l len seq st i =
      (if st.nx ≤ (i : ℚ) then
        { sb := st.sb ++
            [B.seq5.get_weight seq (i : ℤ) + B.pos5.get_weightLP l (st.p + 1)]
          eb := st.eb ++
            [B.seq3.get_weight seq (i : ℤ) + B.pos3.get_weightLP l (st.p + 1)]
          ts := ls st.ts
            (B.seq5.get_weight seq (i : ℤ) + B.pos5.get_weightLP l (st.p + 1))
          te := ls (ls st.ts (B.seq5.get_weight seq (i : ℤ) +
              B.pos5.get_weightLP l (st.p + 1)))
            (B.seq3.get_weight seq (i : ℤ) + B.pos3.get_weightLP l (st.p + 1))
          p := st.p + 1
          nx := (len : ℚ) * B.pos5.pos_bins.getD (st.p + 1) 0
          c5 := B.pos5.get_weightLP l (st.p + 1)
          c3 := B.pos3.get_weightLP l (st.p + 1) }
      else
        { sb := st.sb ++ [B.seq5.get_weight seq (i : ℤ) + st.c5]
          eb := st.eb ++ [B.seq3.get_weight seq (i : ℤ) + st.c3]
          ts := ls st.ts (B.seq5.get_weight seq (i : ℤ) + st.c5)
          te := ls (ls st.ts (B.seq5.get_weight seq (i : ℤ) + st.c5))
            (B.seq3.get_weight seq (i : ℤ) + st.c3)
          p := st.p, nx := st.nx, c5 := st.c5, c3 := st.c3 }) := by
  unfold getTranscriptBiasStep
  by_cases h : st.nx ≤ (i : ℚ) <;> simp [h]

lemma gtbFold_inv (ls : ℚ → ℚ → ℚ) (B : BiasBoss) (l len : ℕ)
    (seq : List Char) (hv : ℚ) :
    ∀ n,
      ((gtbFold ls B l len seq hv n).p, (gtbFold ls B l len seq hv n).nx) =
        posCursorBias B.pos5.pos_bins len n ∧
      (gtbFold ls B l len seq hv n).c5 =
        B.pos5.get_weightLP l (gtbFold ls B l len seq hv n).p ∧
      (gtbFold ls B l len seq hv n).c3 =
        B.pos3.get_weightLP l (gtbFold ls B l len seq hv n).p ∧
      (gtbFold ls B l len seq hv n).sb.length = n ∧
      (gtbFold ls B l len seq hv n).eb.length = n ∧
      (∀ i, i < n →
        (gtbFold ls B l len seq hv n).sb.getD i 0 =
          B.seq5.get_weight seq (i : ℤ) +
            B.pos5.get_weightLP l
              ((posCursorBias B.pos5.pos_bins len (i + 1)).1) ∧
        (gtbFold ls B l len seq hv n).eb.getD i 0 =
          B.seq3.get_weight seq (i : ℤ) +
            B.pos3.get_weightLP l
              ((posCursorBias B.pos5.pos_bins len (i + 1)).1)) := by
  intro n
  induction n with
  | zero =>
    exact ⟨rfl, rfl, rfl, rfl, rfl, fun i hi => absurd hi (Nat.not_lt_zero i)⟩
  | succ n ih =>
    obtain ⟨hcur, hc5, hc3, hsl, hel, helem⟩ := ih
    have hcurp : (gtbFold ls B l len seq hv n).p =
        (posCursorBias B.pos5.pos_bins len n).1 := by rw [← hcur]
    have hcurn : (gtbFold ls B l len seq hv n).nx =
        (posCursorBias B.pos5.pos_bins len n).2 := by rw [← hcur]
    rw [gtbFold_succ, gtb_step_eval]
    by_cases htr : (gtbFold ls B l len seq hv n).nx ≤ (n : ℚ)
    · rw [if_pos htr]
      have hcb : posCursorBias B.pos5.pos_bins len (n + 1) =
          ((gtbFold ls B l len seq hv n).p + 1,
            (len : ℚ) * B.pos5.pos_bins.getD
              ((gtbFold ls B l len seq hv n).p + 1) 0) := by
        rw [posCursorBias_succ, if_pos (hcurn ▸ htr), ← hcurp]
      refine ⟨by rw [hcb], rfl, rfl, by simp [hsl], by simp [hel], ?_⟩
      intro i hi
      rcases Nat.lt_succ_iff_lt_or_eq.mp hi with hi' | hi'
      · constructor
        · rw [List.getD_append _ _ _ _ (by omega), (helem i hi').1]
        · rw [List.getD_append _ _ _ _ (by omega), (helem i hi').2]
      · subst hi'
        constructor
        · rw [List.getD_append_right _ _ _ _ (by omega), hsl]
          simp [hcb]
        · rw [List.getD_append_right _ _ _ _ (by omega), hel]
          simp [hcb]
    · rw [if_neg htr]
      have hcb : posCursorBias B.pos5.pos_bins len (n + 1) =
          posCursorBias B.pos5.pos_bins len n := by
        rw [posCursorBias_succ, if_neg (hcurn ▸ htr)]
      refine ⟨by rw [hcb, ← hcur], hc5, hc3, by simp [hsl], by simp [hel],
        ?_⟩
      intro i hi
      rcases Nat.lt_succ_iff_lt_or_eq.mp hi with hi' | hi'
      · constructor
        · rw [List.getD_append _ _ _ _ (by omega), (helem i hi').1]
        · rw [List.getD_append _ _ _ _ (by omega), (helem i hi').2]
      · subst hi'
        constructor
        · rw [List.getD_append_right _ _ _ _ (by omega), hsl]
          simp [hcb, hc5, hcurp]
        · rw [List.getD_append_right _ _ _ _ (by omega), hel]
          simp [hcb, hc3, hcurp]

/-- Substantiation for `biasReadPairAt`: the bias curves returned by
`get_transcript_bias` have one entry per base, and entry `i` is the
sequence-window weight at `i` plus the position weight read at the
`(length_bin, position_bin)` pair `biasReadPairAt`. -/
theorem get_transcript_bias_curve_reads (ls : ℚ → ℚ → ℚ) (lg hv : ℚ)
    (B : BiasBoss) (trans : Transcript) :
    (BiasBoss.get_transcript_bias ls lg hv B trans).start_bias.length =
      trans.length ∧
    (BiasBoss.get_transcript_bias ls lg hv B trans).end_bias.length =
      trans.length ∧
    (∀ i, i < trans.length →
      (BiasBoss.get_transcript_bias ls lg hv B trans).start_bias.getD i 0 =
        B.seq5.get_weight trans.seq (i : ℤ) +
          B.pos5.get_weightLP (biasReadPairAt B trans i).1
            (biasReadPairAt B trans i).2 ∧
      (BiasBoss.get_transcript_bias ls lg hv B trans).end_bias.getD i 0 =
        B.seq3.get_weight trans.seq (i : ℤ) +
          B.pos3.get_weightLP (biasReadPairAt B trans i).1
            (biasReadPairAt B trans i).2) :=
  ⟨(gtbFold_inv ls B (upperBound B.pos5.len_bins trans.length)
      trans.length trans.seq hv trans.length).2.2.2.1,
    (gtbFold_inv ls B (upperBound B.pos5.len_bins trans.length)
      trans.length trans.seq hv trans.length).2.2.2.2.1,
    fun i hi =>
      (gtbFold_inv ls B (upperBound B.pos5.len_bins trans.length)
        trans.length trans.seq hv trans.length).2.2.2.2.2 i hi⟩

/-- Claim C1 (code behaviour at the defect): in
`BiasBoss::get_transcript_bias`, line 325 folds `tot_end` over the
already-updated `tot_start` (`tot_end = log_sum(tot_start, end_bias[i])`)
instead of over `tot_end`'s own previous value, so for every non-empty
transcript the final `tot_end` is `log_sum` of the final `tot_start` with
only the last end weight — every earlier end weight is dropped — while
the claimed contract accumulates the end weights into their own running
total.  The returned scalar is, as claimed,
`(tot_start + tot_end) - 2*log(length)`. -/
theorem c1_tot_end_folds_tot_start (ls : ℚ → ℚ → ℚ) (lg hv : ℚ)
    (B : BiasBoss) (trans : Transcript) (h : 0 < trans.length) :
    (BiasBoss.get_transcript_bias ls lg hv B trans).tot_end =
      ls (BiasBoss.get_transcript_bias ls lg hv B trans).tot_start
        ((BiasBoss.get_transcript_bias ls lg hv B trans).end_bias.getD
          (trans.length - 1) 0) ∧
    (BiasBoss.get_transcript_bias ls lg hv B trans).avg =
      ((BiasBoss.get_transcript_bias ls lg hv B trans).tot_start +
        (BiasBoss.get_transcript_bias ls lg hv B trans).tot_end)
        - 2 * lg := by
  refine ⟨?_, rfl⟩
  obtain ⟨m, hm⟩ : ∃ m, trans.length = m + 1 := ⟨trans.length - 1, by omega⟩
  show (gtbFinal ls hv B trans).te =
    ls (gtbFinal ls hv B trans).ts
      ((gtbFinal ls hv B trans).eb.getD (trans.length - 1) 0)
  unfold gtbFinal
  rw [hm, Nat.add_sub_cancel, gtbFold_succ, gtb_step_eval]
  have hel := (gtbFold_inv ls B (upperBound B.pos5.len_bins (m + 1))
    (m + 1) trans.seq hv m).2.2.2.2.1
  by_cases htr : (gtbFold ls B (upperBound B.pos5.len_bins (m + 1))
      (m + 1) trans.seq hv m).nx ≤ (m : ℚ)
  · rw [if_pos htr]
    simp only [List.getD_append_right _ _ _ _ (le_of_eq hel), hel,
      Nat.sub_self, List.getD_cons_zero]
  · rw [if_neg htr]
    simp only [List.getD_append_right _ _ _ _ (le_of_eq hel), hel,
      Nat.sub_self, List.getD_cons_zero]

/-- Witness for C1: the code-behaviour theorem applied to a concrete
one-base transcript with concrete combine and sentinel. -/
theorem c1_tot_end_folds_tot_start_witness :
    (BiasBoss.get_transcript_bias lse0 0 0 boss0 trans1).tot_end =
      lse0 (BiasBoss.get_transcript_bias lse0 0 0 boss0 trans1).tot_start
        ((BiasBoss.get_transcript_bias lse0 0 0 boss0 trans1).end_bias.getD
          (trans1.length - 1) 0) ∧
    (BiasBoss.get_transcript_bias lse0 0 0 boss0 trans1).avg =
      ((BiasBoss.get_transcript_bias lse0 0 0 boss0 trans1).tot_start +
        (BiasBoss.get_transcript_bias lse0 0 0 boss0 trans1).tot_end)
        - 2 * 0 :=
  c1_tot_end_folds_tot_start lse0 0 0 boss0 trans1 (by decide)

end BiasCorrection
